import Mathlib

/-!
Shallow embedding of the obsidian-pdf-outline plugin
(src/pdf-parser.ts, src/view.ts, src/main.ts) and verification of its
specification claims.

JavaScript values that the code inspects dynamically (PDF.js destinations,
page references) are modelled by the inductive `JSVal`; host-library calls
that may throw are modelled as `Except Unit` valued fields of `Doc`.
Strings are handled through their character lists, so that the JS string
operations `toLowerCase`, `includes` and the blank test `!s.trim()` have
direct, executable embeddings.
-/

set_option maxHeartbeats 1000000

namespace PdfOutline

/-- A dynamically-typed JavaScript value as far as the plugin inspects one:
`typeof dest === 'string'`, `Array.isArray(dest)`, opaque page-reference
objects, and `undefined`. -/
inductive JSVal where
  | str (s : String)
  | arr (elems : List JSVal)
  | obj (id : Nat)
  | undef


/-- JavaScript truthiness of a `JSVal`: the empty string and `undefined`
are falsy, every other value the code can meet here is truthy. -/
def JSVal.truthy : JSVal → Bool
  | .str s => s ≠ ""
  | .arr _ => true
  | .obj _ => true
  | .undef => false

/-- A raw outline node as delivered by PDF.js `getOutline()`:
`title` may be absent or empty (JS falsy), `dest` may be absent
(`null`/`undefined`) or any value, `items` is the list of child nodes
(an absent `items` field behaves as the empty list). -/
inductive RawOutlineNode where
  | mk (title : Option String) (dest : Option JSVal) (items : List RawOutlineNode)

def RawOutlineNode.title : RawOutlineNode → Option String
  | .mk t _ _ => t

def RawOutlineNode.dest : RawOutlineNode → Option JSVal
  | .mk _ d _ => d

def RawOutlineNode.items : RawOutlineNode → List RawOutlineNode
  | .mk _ _ i => i

/-- The loaded PDF.js document, reduced to the three calls the parser makes
on it.  `getDestination` and `getPageIndex` may reject (throw), which the
embedding renders as `Except Unit`; `getOutline` returns `null` (`none`)
or an array of raw outline nodes (it may also reject). -/
structure Doc where
  getDestination : String → Except Unit JSVal
  getPageIndex : JSVal → Except Unit Nat
  getOutline : Except Unit (Option (List RawOutlineNode))

/-- The plugin's own outline structure (src/types.ts `PDFOutlineItem`):
title, 1-indexed page, children, and the original PDF.js destination. -/
inductive PDFOutlineItem where
  | mk (title : String) (page : Nat) (children : List PDFOutlineItem) (dest : Option JSVal)


def PDFOutlineItem.title : PDFOutlineItem → String
  | .mk t _ _ _ => t

def PDFOutlineItem.page : PDFOutlineItem → Nat
  | .mk _ p _ _ => p

def PDFOutlineItem.children : PDFOutlineItem → List PDFOutlineItem
  | .mk _ _ c _ => c

def PDFOutlineItem.dest : PDFOutlineItem → Option JSVal
  | .mk _ _ _ d => d

/-! ### JS string operations, embedded on character lists -/

/-- JS `s.toLowerCase()`.  JS lowercases per code unit; the embedding
lowercases each character with `Char.toLower` (ASCII letters). -/
def jsToLowerCase (s : String) : String :=
  ⟨s.data.map Char.toLower⟩

/-- JS `s.includes(sub)`: `sub` occurs contiguously inside `s`. -/
def jsIncludes (s sub : String) : Bool :=
  decide (sub.data <:+: s.data)

/-- JS `!s.trim()`: after removing leading and trailing whitespace nothing
remains, i.e. every character of `s` is whitespace (true in particular for
the empty string). -/
def jsIsBlank (s : String) : Bool :=
  s.data.all Char.isWhitespace

/-! ### src/pdf-parser.ts -/

/-- The body of `resolveDestination`'s `try` block up to the array test:
a string destination is first looked up with `doc.getDestination` (which
may throw); the resulting value (or the original non-string value) is then
returned for the `Array.isArray` test. -/
def destLookup (doc : Doc) (dest : JSVal) : Except Unit JSVal :=
  match dest with
  | .str s => doc.getDestination s
  | d => .ok d

/-- `resolveDestination(doc, dest)` (src/pdf-parser.ts 185–201): resolve a
string destination by name, then, if the value is an array, take its first
element (`const [ref] = dest`, `undefined` when the array is empty) and
return `doc.getPageIndex(ref) + 1`; on any thrown error, or when the value
is not an array, return 1. -/
def resolveDestination (doc : Doc) (dest : JSVal) : Nat :=
  match destLookup doc dest with
  | .error _ => 1
  | .ok d =>
    match d with
    | .arr elems =>
      match doc.getPageIndex (elems.headD .undef) with
      | .ok pageIndex => pageIndex + 1
      | .error _ => 1
    | _ => 1

mutual

/-- `convertOutlineItemAsync(item, doc)` (src/pdf-parser.ts 206–227):
`page` is `resolveDestination` of `item.dest` when that field is truthy
and 1 otherwise; `title` is `item.title || 'Untitled'`; `children` are the
recursively converted `item.items` (in order) when non-empty. -/
def convertOutlineItemAsync (doc : Doc) : RawOutlineNode → PDFOutlineItem
  | .mk title dest items =>
    let page : Nat :=
      match dest with
      | some d => if d.truthy then resolveDestination doc d else 1
      | none => 1
    let newTitle : String :=
      match title with
      | some s => if s = "" then "Untitled" else s
      | none => "Untitled"
    .mk newTitle page
      (if items.length > 0 then convertItemsAsync doc items else []) dest

/-- `await Promise.all(item.items.map(child => convertOutlineItemAsync(child, doc)))`:
the element-wise recursion of `convertOutlineItemAsync` over a child list. -/
def convertItemsAsync (doc : Doc) : List RawOutlineNode → List PDFOutlineItem
  | [] => []
  | n :: ns => convertOutlineItemAsync doc n :: convertItemsAsync doc ns

end

/-- `parsePDFOutline` (src/pdf-parser.ts 232–269), starting from the loaded
document: read `doc.getOutline()`; if it is `null` or empty return `[]`;
otherwise convert every top-level node.  Thrown errors are re-thrown
(`Except.error`). -/
def parsePDFOutline (doc : Doc) : Except Unit (List PDFOutlineItem) :=
  match doc.getOutline with
  | .error e => .error e
  | .ok outlineOpt =>
    match outlineOpt with
    | none => .ok []
    | some outline =>
      if outline.length = 0 then .ok []
      else .ok (convertItemsAsync doc outline)

/-! ### src/view.ts — search filtering

`filterOutline(items)` reads the instance field `this.searchQuery`, which
is constant throughout one filtering pass (the view lowercases and stores
it on each `input` event, then calls `renderFilteredOutline`).  The
embedding therefore passes the stored query as the explicit argument `q`.
Every level of the recursion sees the same `q`, so the blank test
`!this.searchQuery.trim()` gives the same answer at every level: below a
non-blank top-level call the `else` branch is always taken, and every
level matches titles against the same `this.searchQuery.toLowerCase()`.
`filterBody` is that `else` branch with the lowercased query. -/

/-- The loop body of `filterOutline` for a non-blank query (already
lowercased): keep an item, its children replaced by their own filtering
(`{...item, children: filteredChildren}`), iff its lowercased title
contains the query or some child survived. -/
def filterBody (query : String) : List PDFOutlineItem → List PDFOutlineItem
  | [] => []
  | .mk title page children dest :: rest =>
    let filteredChildren := filterBody query children
    if jsIncludes (jsToLowerCase title) query || filteredChildren.length > 0 then
      .mk title page filteredChildren dest :: filterBody query rest
    else
      filterBody query rest

/-- `filterOutline(items)` (src/view.ts 150–171) with the stored
`this.searchQuery` as `q`: return `items` unchanged when the query is
blank, otherwise run the filtering loop with `q.toLowerCase()`. -/
def filterOutline (q : String) (items : List PDFOutlineItem) : List PDFOutlineItem :=
  if jsIsBlank q then items else filterBody (jsToLowerCase q) items

/-! Specification-side predicate used to characterise `filterBody`. -/

mutual

/-- Spec predicate: the item's own (lowercased) title contains the query,
or some descendant's does. -/
def hasMatch (query : String) : PDFOutlineItem → Bool
  | .mk title _ children _ =>
    jsIncludes (jsToLowerCase title) query || hasMatchList query children

/-- `hasMatch` somewhere in a list of items. -/
def hasMatchList (query : String) : List PDFOutlineItem → Bool
  | [] => false
  | item :: rest => hasMatch query item || hasMatchList query rest

end

/-! ### src/view.ts — page navigation dispatch -/

/-- The internal PDF.js viewer object (`pdfView.pdfViewer`), as far as the
code inspects it: whether `currentPageNumber` is defined on it. -/
structure PdfViewer where
  hasCurrentPageNumber : Bool

/-- A DOM container, as far as the code inspects it: the result of
`querySelector('input[type="number"]')`, i.e. whether a page-number input
exists (identified by a `Nat` id). -/
structure Container where
  pageInput : Option Nat

/-- The host's PDF view object, reduced to what `navigateToPageInLeaf`
probes on it: which of the three candidate methods exist
(`typeof pdfView.m === 'function'`), the optional internal viewer, and the
optional container element. -/
structure PdfView where
  hasGoToPage : Bool
  hasJumpToPage : Bool
  hasNavigateToPage : Bool
  pdfViewer : Option PdfViewer
  containerEl : Option Container

/-- The externally visible effect of one `navigateToPageInLeaf` call. -/
inductive NavAction where
  | goToPage (page : Nat)
  | jumpToPage (page : Nat)
  | navigateToPage (page : Nat)
  | setCurrentPageNumber (page : Nat)
  | drivePageInput (input : Nat) (page : Nat)
  | warn (page : Nat)

/-- `navigateToPageInLeaf` (src/view.ts 350–410) from the point where a
leaf with a view has been found (`pdfView = leaf.view`): try
`goToPage`, `jumpToPage`, `navigateToPage`; then, if the internal viewer
exists and has `currentPageNumber`, assign it; then look for a page input
in `pdfView?.containerEl || leaf.containerEl` and drive it; otherwise log
the warning. -/
def navigateToPageInLeaf (page : Nat) (pdfView : PdfView)
    (leafContainerEl : Option Container) : NavAction :=
  if pdfView.hasGoToPage then .goToPage page
  else if pdfView.hasJumpToPage then .jumpToPage page
  else if pdfView.hasNavigateToPage then .navigateToPage page
  else if (match pdfView.pdfViewer with
           | some viewer => viewer.hasCurrentPageNumber
           | none => false) then .setCurrentPageNumber page
  else
    match pdfView.containerEl.or leafContainerEl with
    | some container =>
      match container.pageInput with
      | some input => .drivePageInput input page
      | none => .warn page
    | none => .warn page

/-! ### src/main.ts — file-open handling -/

/-- A host file, as far as the handler inspects it. -/
structure TFile where
  extension : String

/-- `updateOutlineForFile` (src/main.ts 85–101), given the outcome of
`parsePDFOutline`: display the parsed outline, or `[]` when parsing threw.
The result is the outline list passed to `view.displayOutline`, which
replaces the view's `outlineItems` wholesale. -/
def updateOutlineForFile (parseResult : Except Unit (List PDFOutlineItem)) :
    List PDFOutlineItem :=
  match parseResult with
  | .ok outline => outline
  | .error _ => []

/-- The `file-open` handler (src/main.ts 25–36): for a PDF file run
`updateOutlineForFile`, otherwise (non-PDF extension or `null` file)
display the empty outline.  `prev` is the outline displayed before the
event; it is never consulted. -/
def onFileOpen (file : Option TFile)
    (parseResult : Except Unit (List PDFOutlineItem))
    (_prev : List PDFOutlineItem) : List PDFOutlineItem :=
  match file with
  | some f => if f.extension = "pdf" then updateOutlineForFile parseResult else []
  | none => []

/-! ### Generic facts about the outline tree -/

@[simp] theorem PDFOutlineItem.title_mk (t : String) (p : Nat)
    (c : List PDFOutlineItem) (d : Option JSVal) :
    (PDFOutlineItem.mk t p c d).title = t := rfl

@[simp] theorem PDFOutlineItem.page_mk (t : String) (p : Nat)
    (c : List PDFOutlineItem) (d : Option JSVal) :
    (PDFOutlineItem.mk t p c d).page = p := rfl

@[simp] theorem PDFOutlineItem.children_mk (t : String) (p : Nat)
    (c : List PDFOutlineItem) (d : Option JSVal) :
    (PDFOutlineItem.mk t p c d).children = c := rfl

@[simp] theorem PDFOutlineItem.dest_mk (t : String) (p : Nat)
    (c : List PDFOutlineItem) (d : Option JSVal) :
    (PDFOutlineItem.mk t p c d).dest = d := rfl

/-- Simultaneous induction over outline items and lists of outline items
(the nested recursor, packaged for reuse). -/
theorem PDFOutlineItem.inductionOn
    (P : PDFOutlineItem → Prop) (Q : List PDFOutlineItem → Prop)
    (hmk : ∀ title page children dest, Q children → P (.mk title page children dest))
    (hnil : Q [])
    (hcons : ∀ item rest, P item → Q rest → Q (item :: rest)) :
    (∀ item, P item) ∧ (∀ items, Q items) := by
  have hitem : ∀ item, P item := fun item => @PDFOutlineItem.rec P Q hmk hnil hcons item
  refine ⟨hitem, fun items => ?_⟩
  induction items with
  | nil => exact hnil
  | cons h t ih => exact hcons h t (hitem h) ih

/-- Simultaneous induction over raw outline nodes and lists of them. -/
theorem RawOutlineNode.nodeInduction
    (P : RawOutlineNode → Prop) (Q : List RawOutlineNode → Prop)
    (hmk : ∀ title dest items, Q items → P (.mk title dest items))
    (hnil : Q [])
    (hcons : ∀ n ns, P n → Q ns → Q (n :: ns)) :
    (∀ n, P n) ∧ (∀ ns, Q ns) := by
  have hnode : ∀ n, P n := fun n => @RawOutlineNode.rec P Q hmk hnil hcons n
  refine ⟨hnode, fun ns => ?_⟩
  induction ns with
  | nil => exact hnil
  | cons h t ih => exact hcons h t (hnode h) ih

/-- `t` occurs as a node of the forest `items`: it is one of the items or,
recursively, a node of some item's children. -/
inductive IsNodeOf (t : PDFOutlineItem) : List PDFOutlineItem → Prop where
  | root {items} : t ∈ items → IsNodeOf t items
  | descend {item items} : item ∈ items → IsNodeOf t item.children → IsNodeOf t items

theorem IsNodeOf.not_nil {t : PDFOutlineItem} : ¬ IsNodeOf t [] := by
  rintro (h | ⟨h, _⟩) <;> exact absurd h (List.not_mem_nil _)

theorem isNodeOf_cons {t item : PDFOutlineItem} {rest : List PDFOutlineItem} :
    IsNodeOf t (item :: rest)
      ↔ t = item ∨ IsNodeOf t item.children ∨ IsNodeOf t rest := by
  constructor
  · rintro (h | ⟨hmem, hsub⟩)
    · rcases List.mem_cons.mp h with h | h
      · exact Or.inl h
      · exact Or.inr (Or.inr (.root h))
    · rcases List.mem_cons.mp hmem with h | h
      · subst h; exact Or.inr (Or.inl hsub)
      · exact Or.inr (Or.inr (.descend h hsub))
  · rintro (rfl | hsub | h)
    · exact .root (List.mem_cons_self _ _)
    · exact .descend (List.mem_cons_self _ _) hsub
    · rcases h with hmem | ⟨hmem, hsub⟩
      · exact .root (List.mem_cons_of_mem _ hmem)
      · exact .descend (List.mem_cons_of_mem _ hmem) hsub

/-! ### Lemmas about the search filter -/

/-- The rebuilding of one kept node: the node with its children replaced by
their filtering (`{...item, children: filteredChildren}`). -/
def filterNode (query : String) : PDFOutlineItem → PDFOutlineItem
  | .mk title page children dest => .mk title page (filterBody query children) dest

theorem hasMatchList_eq_any (query : String) (l : List PDFOutlineItem) :
    hasMatchList query l = l.any (hasMatch query) := by
  induction l with
  | nil => rfl
  | cons h t ih => simp [hasMatchList, ih]

/-- `filterBody` keeps exactly the items satisfying `hasMatch`, in order,
rebuilding each kept item with its filtered children. -/
theorem filterBody_eq (query : String) (items : List PDFOutlineItem) :
    filterBody query items = (items.filter (hasMatch query)).map (filterNode query) := by
  induction items using filterBody.induct query with
  | case1 => simp [filterBody]
  | case2 title page children dest rest fc cond ihc ihr =>
    have hlen : (0 < (filterBody query children).length)
        ↔ children.any (hasMatch query) = true := by
      rw [ihc]
      simp [List.length_pos, List.filter_eq_nil_iff, List.any_eq_true]
    have hm : hasMatch query (.mk title page children dest) = true := by
      rw [hasMatch, hasMatchList_eq_any]
      rcases Bool.or_eq_true_iff.mp cond with h | h
      · exact Bool.or_eq_true_iff.mpr (Or.inl h)
      · exact Bool.or_eq_true_iff.mpr (Or.inr (hlen.mp (of_decide_eq_true h)))
    rw [filterBody, if_pos cond, List.filter_cons_of_pos hm, List.map_cons, ihr]
    rfl
  | case3 title page children dest rest fc cond ihc ihr =>
    have hlen : (0 < (filterBody query children).length)
        ↔ children.any (hasMatch query) = true := by
      rw [ihc]
      simp [List.length_pos, List.filter_eq_nil_iff, List.any_eq_true]
    have hm : hasMatch query (.mk title page children dest) = false := by
      rw [hasMatch, hasMatchList_eq_any]
      rcases Bool.or_eq_false_iff.mp (Bool.of_not_eq_true cond) with ⟨h1, h2⟩
      refine Bool.or_eq_false_iff.mpr ⟨h1, ?_⟩
      by_contra hc
      exact absurd (hlen.mpr (Bool.of_not_eq_false hc)) (by simpa using h2)
    rw [filterBody, if_neg cond, List.filter_cons_of_neg (by simp [hm]), ihr]

/-- `hasMatch`/`hasMatchList` agree with their existential reading:
some node of the tree (the item itself or a descendant / some node of the
forest) has a lowercased title containing the query. -/
theorem hasMatch_hasMatchList_iff (query : String) :
    (∀ item : PDFOutlineItem,
        hasMatch query item = true
          ↔ (jsIncludes (jsToLowerCase item.title) query = true
             ∨ ∃ d, IsNodeOf d item.children
                 ∧ jsIncludes (jsToLowerCase d.title) query = true))
    ∧ (∀ items : List PDFOutlineItem,
        hasMatchList query items = true
          ↔ ∃ d, IsNodeOf d items ∧ jsIncludes (jsToLowerCase d.title) query = true) := by
  refine PDFOutlineItem.inductionOn _ _ ?_ ?_ ?_
  · intro title page children dest ih
    rw [hasMatch, Bool.or_eq_true_iff, ih]
    exact Iff.rfl
  · rw [hasMatchList]
    simp only [Bool.false_eq_true, false_iff]
    rintro ⟨d, hd, _⟩
    exact IsNodeOf.not_nil hd
  · intro item rest ihitem ihrest
    rw [hasMatchList, Bool.or_eq_true_iff, ihitem, ihrest]
    constructor
    · rintro ((h | ⟨d, hd, hm⟩) | ⟨d, hd, hm⟩)
      · exact ⟨item, .root (List.mem_cons_self _ _), h⟩
      · exact ⟨d, .descend (List.mem_cons_self _ _) hd, hm⟩
      · rcases hd with hmem | ⟨hmem, hsub⟩
        · exact ⟨d, .root (List.mem_cons_of_mem _ hmem), hm⟩
        · exact ⟨d, .descend (List.mem_cons_of_mem _ hmem) hsub, hm⟩
    · rintro ⟨d, hd, hm⟩
      rcases isNodeOf_cons.mp hd with rfl | hsub | h
      · exact Or.inl (Or.inl hm)
      · exact Or.inl (Or.inr ⟨d, hsub, hm⟩)
      · exact Or.inr ⟨d, h, hm⟩

/-- **C1** (filterOutline keeps exactly the matching subtrees, in order):
for a non-blank query, `filterOutline` keeps an item iff `hasMatch` holds
of it, rebuilding each kept item with exactly its kept children and
preserving the input order of kept siblings (`List.filter`/`List.map`);
and `hasMatch` holds iff the item's own lowercased title contains the
lowercased query or some descendant's does. -/
theorem filterOutline_keeps_matching_subtrees (q : String)
    (items : List PDFOutlineItem) (hq : jsIsBlank q = false) :
    (filterOutline q items
      = (items.filter (hasMatch (jsToLowerCase q))).map
          (fun item => PDFOutlineItem.mk item.title item.page
            (filterOutline q item.children) item.dest))
    ∧ ∀ item : PDFOutlineItem,
        hasMatch (jsToLowerCase q) item = true
          ↔ (jsIncludes (jsToLowerCase item.title) (jsToLowerCase q) = true
             ∨ ∃ d, IsNodeOf d item.children
                 ∧ jsIncludes (jsToLowerCase d.title) (jsToLowerCase q) = true) := by
  constructor
  · rw [filterOutline, if_neg (by simp [hq]), filterBody_eq]
    refine List.map_congr_left ?_
    intro item _
    cases item with
    | mk title page children dest =>
      rw [filterNode, filterOutline, if_neg (by simp [hq])]
      rfl
  · exact (hasMatch_hasMatchList_iff (jsToLowerCase q)).1

/-- Concrete witness for C1: query `"SU"` on a two-root outline keeps only
the subtree whose descendant title contains `"su"` case-insensitively. -/
theorem filterOutline_keeps_matching_subtrees_witness :
    jsIsBlank "SU" = false
    ∧ (filterOutline "SU"
        [ .mk "Intro" 1 [] none,
          .mk "Body" 2 [.mk "Subsection" 3 [] none, .mk "Other" 4 [] none] none ]
        = ([ PDFOutlineItem.mk "Intro" 1 [] none,
             PDFOutlineItem.mk "Body" 2
               [.mk "Subsection" 3 [] none, .mk "Other" 4 [] none] none ].filter
              (hasMatch (jsToLowerCase "SU"))).map
            (fun item => PDFOutlineItem.mk item.title item.page
              (filterOutline "SU" item.children) item.dest))
    ∧ filterOutline "SU"
        [ .mk "Intro" 1 [] none,
          .mk "Body" 2 [.mk "Subsection" 3 [] none, .mk "Other" 4 [] none] none ]
        = [ PDFOutlineItem.mk "Body" 2 [.mk "Subsection" 3 [] none] none ] := by
  refine ⟨by decide, ?_, ?_⟩
  · exact (filterOutline_keeps_matching_subtrees "SU" _ (by decide)).1
  · simp +decide [filterOutline, jsIsBlank, filterBody, jsIncludes, jsToLowerCase]

/-- **C8** (blank query is the identity): when the search query is empty or
all-whitespace, `filterOutline` returns the input list itself. -/
theorem filterOutline_blank_identity (q : String) (items : List PDFOutlineItem)
    (h : q.data.all Char.isWhitespace = true) :
    filterOutline q items = items := by
  have hb : jsIsBlank q = true := h
  rw [filterOutline, if_pos hb]

/-- Concrete witness for C8: the empty query and a whitespace-only query
leave a sample outline unchanged. -/
theorem filterOutline_blank_identity_witness :
    ("".data.all Char.isWhitespace = true
      ∧ filterOutline "" [PDFOutlineItem.mk "Intro" 1 [] none]
          = [PDFOutlineItem.mk "Intro" 1 [] none])
    ∧ (" \t ".data.all Char.isWhitespace = true
      ∧ filterOutline " \t " [PDFOutlineItem.mk "Intro" 1 [] none]
          = [PDFOutlineItem.mk "Intro" 1 [] none]) :=
  ⟨⟨by decide, filterOutline_blank_identity "" _ (by decide)⟩,
   ⟨by decide, filterOutline_blank_identity " \t " _ (by decide)⟩⟩

/-- **C2** (destination resolution): `resolveDestination` is a total
function (the embedding returns a plain `Nat`, mirroring the `try`/`catch`
that swallows every error); it returns the host library's page index plus
one exactly when the destination resolves to an array destination and the
page-index lookup succeeds, and 1 whenever the lookup throws, the resolved
value is not an array, or the page-index lookup throws. -/
theorem resolveDestination_spec (doc : Doc) (dest : JSVal) :
    (∀ elems pageIndex, destLookup doc dest = .ok (.arr elems) →
        doc.getPageIndex (elems.headD .undef) = .ok pageIndex →
        resolveDestination doc dest = pageIndex + 1)
    ∧ (∀ e, destLookup doc dest = .error e → resolveDestination doc dest = 1)
    ∧ (∀ d, destLookup doc dest = .ok d → (∀ elems, d ≠ .arr elems) →
        resolveDestination doc dest = 1)
    ∧ (∀ elems e, destLookup doc dest = .ok (.arr elems) →
        doc.getPageIndex (elems.headD .undef) = .error e →
        resolveDestination doc dest = 1) := by
  refine ⟨?_, ?_, ?_, ?_⟩
  · intro elems pageIndex h1 h2
    simp only [resolveDestination, h1, h2]
  · intro e h
    simp only [resolveDestination, h]
  · intro d h1 h2
    cases d with
    | str s => simp only [resolveDestination, h1]
    | arr elems => exact absurd rfl (h2 elems)
    | obj i => simp only [resolveDestination, h1]
    | undef => simp only [resolveDestination, h1]
  · intro elems e h1 h2
    simp only [resolveDestination, h1, h2]

/-- A small concrete document: one named destination `"chapter1"` that
resolves to the page reference with index 4, a second named destination
whose lookup throws, and a one-node outline. -/
def docEx : Doc where
  getDestination := fun s =>
    if s = "chapter1" then .ok (.arr [.obj 0, .str "XYZ"]) else .error ()
  getPageIndex := fun r =>
    match r with
    | .obj 0 => .ok 4
    | _ => .error ()
  getOutline := .ok (some [.mk (some "Chapter 1") (some (.str "chapter1")) []])

/-- Concrete witness for C2: the named destination resolves to page 5
(index 4 plus one); a failing lookup and a non-array value both give 1. -/
theorem resolveDestination_spec_witness :
    resolveDestination docEx (.str "chapter1") = 5
    ∧ resolveDestination docEx (.str "nope") = 1
    ∧ resolveDestination docEx (.obj 7) = 1 :=
  ⟨(resolveDestination_spec docEx (.str "chapter1")).1 [.obj 0, .str "XYZ"] 4
      (by simp [destLookup, docEx]) (by simp [docEx]),
   (resolveDestination_spec docEx (.str "nope")).2.1 ()
      (by simp [destLookup, docEx]),
   (resolveDestination_spec docEx (.obj 7)).2.2.1 (.obj 7)
      (by simp [destLookup]) (by intro elems h; cases h)⟩

@[simp] theorem RawOutlineNode.mk_title (t : Option String) (d : Option JSVal)
    (i : List RawOutlineNode) : (RawOutlineNode.mk t d i).title = t := rfl

@[simp] theorem RawOutlineNode.mk_dest (t : Option String) (d : Option JSVal)
    (i : List RawOutlineNode) : (RawOutlineNode.mk t d i).dest = d := rfl

@[simp] theorem RawOutlineNode.mk_items (t : Option String) (d : Option JSVal)
    (i : List RawOutlineNode) : (RawOutlineNode.mk t d i).items = i := rfl

/-- Converting a child list is the element-wise conversion, in order. -/
theorem convertItemsAsync_eq_map (doc : Doc) (ns : List RawOutlineNode) :
    convertItemsAsync doc ns = ns.map (convertOutlineItemAsync doc) := by
  induction ns with
  | nil => rw [convertItemsAsync]; rfl
  | cons n ns ih => rw [convertItemsAsync, ih]; rfl

/-- **C5** (outline node conversion): the converted item's title is the
node's title when that is a non-empty string and `'Untitled'` otherwise;
its page is the resolved destination page when the node has a (truthy)
destination and 1 when it has none; its children are the conversions of
the node's child items in the same order (and the original destination is
kept). -/
theorem convertOutlineItemAsync_spec (doc : Doc) (node : RawOutlineNode) :
    (∀ s, node.title = some s → s ≠ "" →
        (convertOutlineItemAsync doc node).title = s)
    ∧ ((node.title = none ∨ node.title = some "") →
        (convertOutlineItemAsync doc node).title = "Untitled")
    ∧ (∀ d, node.dest = some d → d.truthy = true →
        (convertOutlineItemAsync doc node).page = resolveDestination doc d)
    ∧ ((node.dest = none ∨ ∃ d, node.dest = some d ∧ d.truthy = false) →
        (convertOutlineItemAsync doc node).page = 1)
    ∧ (convertOutlineItemAsync doc node).children
        = node.items.map (convertOutlineItemAsync doc)
    ∧ (convertOutlineItemAsync doc node).dest = node.dest := by
  obtain ⟨t, d, items⟩ := node
  refine ⟨?_, ?_, ?_, ?_, ?_, ?_⟩
  · intro s hs hne
    rw [RawOutlineNode.mk_title] at hs
    subst hs
    simp [convertOutlineItemAsync, hne]
  · intro h
    rw [RawOutlineNode.mk_title] at h
    rcases h with rfl | rfl <;> simp [convertOutlineItemAsync]
  · intro dv hd htruthy
    rw [RawOutlineNode.mk_dest] at hd
    subst hd
    simp [convertOutlineItemAsync, htruthy]
  · intro h
    rw [RawOutlineNode.mk_dest] at h
    rcases h with rfl | ⟨dv, rfl, hfalsy⟩
    · simp [convertOutlineItemAsync]
    · simp [convertOutlineItemAsync, hfalsy]
  · cases items with
    | nil => simp [convertOutlineItemAsync, convertItemsAsync]
    | cons n ns => simp [convertOutlineItemAsync, convertItemsAsync_eq_map]
  · simp [convertOutlineItemAsync]

/-- A concrete raw outline node: named destination, one untitled child. -/
def nodeEx : RawOutlineNode :=
  .mk (some "Chapter 1") (some (.str "chapter1")) [.mk none none []]

/-- Concrete witness for C5: the example node keeps its title, resolves its
destination, and converts its child list element-wise. -/
theorem convertOutlineItemAsync_spec_witness :
    (convertOutlineItemAsync docEx nodeEx).title = "Chapter 1"
    ∧ (convertOutlineItemAsync docEx nodeEx).page
        = resolveDestination docEx (.str "chapter1")
    ∧ (convertOutlineItemAsync docEx nodeEx).children
        = nodeEx.items.map (convertOutlineItemAsync docEx) :=
  ⟨(convertOutlineItemAsync_spec docEx nodeEx).1 "Chapter 1" rfl (by decide),
   (convertOutlineItemAsync_spec docEx nodeEx).2.2.1 (.str "chapter1") rfl (by decide),
   (convertOutlineItemAsync_spec docEx nodeEx).2.2.2.2.1⟩

/-- **C10** (the view is cleared): a `null` file, a non-`pdf` file, and a
parse error each make the handler display the empty outline; the
previously displayed outline (`prev`) is never consulted. -/
theorem onFileOpen_clears (file : Option TFile)
    (parseResult : Except Unit (List PDFOutlineItem))
    (prev : List PDFOutlineItem) :
    (file = none → onFileOpen file parseResult prev = [])
    ∧ (∀ f, file = some f → f.extension ≠ "pdf" →
        onFileOpen file parseResult prev = [])
    ∧ (∀ e, parseResult = .error e → onFileOpen file parseResult prev = []) := by
  refine ⟨?_, ?_, ?_⟩
  · rintro rfl
    rfl
  · rintro f rfl hne
    simp [onFileOpen, hne]
  · rintro e rfl
    cases file with
    | none => rfl
    | some f =>
      by_cases hf : f.extension = "pdf" <;>
        simp [onFileOpen, updateOutlineForFile, hf]

/-- Concrete witness for C10: with a non-empty previous outline, each of
the three situations displays the empty outline. -/
theorem onFileOpen_clears_witness :
    onFileOpen none (.ok [PDFOutlineItem.mk "Old" 1 [] none])
        [PDFOutlineItem.mk "Old" 1 [] none] = []
    ∧ onFileOpen (some ⟨"md"⟩) (.ok [PDFOutlineItem.mk "Old" 1 [] none])
        [PDFOutlineItem.mk "Old" 1 [] none] = []
    ∧ onFileOpen (some ⟨"pdf"⟩) (.error ())
        [PDFOutlineItem.mk "Old" 1 [] none] = [] :=
  ⟨(onFileOpen_clears none _ _).1 rfl,
   (onFileOpen_clears (some ⟨"md"⟩) _ _).2.1 ⟨"md"⟩ rfl (by decide),
   (onFileOpen_clears (some ⟨"pdf"⟩) _ _).2.2 () rfl⟩

/-! ### Navigation dispatch: spec-side applicability of the strategies -/

/-- Strategy 4 is applicable: the internal viewer exists and defines
`currentPageNumber`. -/
def viewerPageNumberApplicable (view : PdfView) : Bool :=
  match view.pdfViewer with
  | some viewer => viewer.hasCurrentPageNumber
  | none => false

/-- Strategy 5's page input: the input element found in
`pdfView?.containerEl || leaf.containerEl`, if any. -/
def pageInputLookup (view : PdfView) (lc : Option Container) : Option Nat :=
  match view.containerEl.or lc with
  | some container => container.pageInput
  | none => none

/-- **C3** (first-applicable dispatch): `navigateToPageInLeaf` performs the
five strategies' effects in the fixed order `goToPage`, `jumpToPage`,
`navigateToPage`, assignment to the internal viewer's
`currentPageNumber`, driving the page-number input — always the first
applicable one and only it — and warns if and only if none of the five is
applicable. -/
theorem navigateToPageInLeaf_first_applicable (page : Nat) (view : PdfView)
    (lc : Option Container) :
    (view.hasGoToPage = true →
        navigateToPageInLeaf page view lc = .goToPage page)
    ∧ (view.hasGoToPage = false → view.hasJumpToPage = true →
        navigateToPageInLeaf page view lc = .jumpToPage page)
    ∧ (view.hasGoToPage = false → view.hasJumpToPage = false →
        view.hasNavigateToPage = true →
        navigateToPageInLeaf page view lc = .navigateToPage page)
    ∧ (view.hasGoToPage = false → view.hasJumpToPage = false →
        view.hasNavigateToPage = false → viewerPageNumberApplicable view = true →
        navigateToPageInLeaf page view lc = .setCurrentPageNumber page)
    ∧ (∀ input, view.hasGoToPage = false → view.hasJumpToPage = false →
        view.hasNavigateToPage = false → viewerPageNumberApplicable view = false →
        pageInputLookup view lc = some input →
        navigateToPageInLeaf page view lc = .drivePageInput input page)
    ∧ (navigateToPageInLeaf page view lc = .warn page
        ↔ view.hasGoToPage = false ∧ view.hasJumpToPage = false
          ∧ view.hasNavigateToPage = false
          ∧ viewerPageNumberApplicable view = false
          ∧ pageInputLookup view lc = none) := by
  obtain ⟨g, j, n, v, c⟩ := view
  refine ⟨?_, ?_, ?_, ?_, ?_, ?_⟩
  · rintro rfl
    rfl
  · rintro rfl rfl
    rfl
  · rintro rfl rfl rfl
    rfl
  · rintro rfl rfl rfl hv
    simp only [navigateToPageInLeaf, viewerPageNumberApplicable] at *
    rw [hv]
    simp
  · rintro input rfl rfl rfl hv hinput
    rcases c with _ | ⟨ci⟩ <;> rcases lc with _ | ⟨li⟩ <;>
      simp_all [navigateToPageInLeaf, viewerPageNumberApplicable,
        pageInputLookup, Option.or]
  · cases g <;> cases j <;> cases n <;>
      rcases v with _ | ⟨b⟩ <;> (try cases b) <;>
      rcases c with _ | ⟨ci⟩ <;> (try rcases ci with _ | inp) <;>
      rcases lc with _ | ⟨li⟩ <;> (try rcases li with _ | inp2) <;>
      simp [navigateToPageInLeaf, viewerPageNumberApplicable,
        pageInputLookup, Option.or] <;>
      (try (split <;> simp))

/-- Concrete witness for C3: a view exposing only `jumpToPage` dispatches
to it; a view exposing nothing (and with an input-less container) warns. -/
theorem navigateToPageInLeaf_first_applicable_witness :
    navigateToPageInLeaf 7 ⟨false, true, false, none, none⟩ none
      = .jumpToPage 7
    ∧ navigateToPageInLeaf 7 ⟨false, false, false, none, some ⟨none⟩⟩ none
      = .warn 7 :=
  ⟨(navigateToPageInLeaf_first_applicable 7
      ⟨false, true, false, none, none⟩ none).2.1 rfl rfl,
   (navigateToPageInLeaf_first_applicable 7
      ⟨false, false, false, none, some ⟨none⟩⟩ none).2.2.2.2.2.mpr
      ⟨rfl, rfl, rfl, rfl, rfl⟩⟩

/-! ### Invariants of the parsed outline (C9) -/

/-- `resolveDestination` never returns less than 1. -/
theorem one_le_resolveDestination (doc : Doc) (dest : JSVal) :
    1 ≤ resolveDestination doc dest := by
  rw [resolveDestination]
  rcases destLookup doc dest with e | d
  · exact Nat.le_refl 1
  · cases d with
    | arr elems =>
      show 1 ≤ (match doc.getPageIndex (elems.headD .undef) with
        | .ok pageIndex => pageIndex + 1
        | .error _ => 1)
      rcases doc.getPageIndex (elems.headD .undef) with e | i
      · exact Nat.le_refl 1
      · exact Nat.le_add_left 1 i
    | str s => exact Nat.le_refl 1
    | obj i => exact Nat.le_refl 1
    | undef => exact Nat.le_refl 1

/-- Every node produced by the converters has a page of at least 1 and a
non-empty title. -/
theorem convert_invariant (doc : Doc) :
    (∀ n : RawOutlineNode, ∀ t : PDFOutlineItem,
        (t = convertOutlineItemAsync doc n
          ∨ IsNodeOf t (convertOutlineItemAsync doc n).children) →
        1 ≤ t.page ∧ t.title ≠ "")
    ∧ (∀ ns : List RawOutlineNode, ∀ t : PDFOutlineItem,
        IsNodeOf t (convertItemsAsync doc ns) → 1 ≤ t.page ∧ t.title ≠ "") := by
  refine RawOutlineNode.nodeInduction _ _ ?_ ?_ ?_
  · intro title dest items ih t ht
    rcases ht with rfl | hsub
    · constructor
      · simp only [convertOutlineItemAsync, PDFOutlineItem.page_mk]
        rcases dest with _ | dv
        · exact Nat.le_refl 1
        · simp only
          split
          · exact one_le_resolveDestination doc dv
          · exact Nat.le_refl 1
      · simp only [convertOutlineItemAsync, PDFOutlineItem.title_mk]
        rcases title with _ | s
        · simp
        · simp only
          split
          · simp
          · simpa using by assumption
    · simp only [convertOutlineItemAsync, PDFOutlineItem.children_mk] at hsub
      split at hsub
      · exact ih t hsub
      · exact absurd hsub IsNodeOf.not_nil
  · intro t ht
    rw [convertItemsAsync] at ht
    exact absurd ht IsNodeOf.not_nil
  · intro n ns ihn ihns t ht
    rw [convertItemsAsync] at ht
    rcases isNodeOf_cons.mp ht with rfl | hsub | hrest
    · exact ihn _ (Or.inl rfl)
    · exact ihn t (Or.inr hsub)
    · exact ihns t hrest

/-- **C9** (invariant of the parsed outline): every node of an outline
successfully returned by `parsePDFOutline` has `page ≥ 1` and a non-empty
title; and a `null` or empty outline yields the empty list. -/
theorem parsePDFOutline_invariant (doc : Doc) :
    (∀ items, parsePDFOutline doc = .ok items →
        ∀ t, IsNodeOf t items → 1 ≤ t.page ∧ t.title ≠ "")
    ∧ ((doc.getOutline = .ok none ∨ doc.getOutline = .ok (some [])) →
        parsePDFOutline doc = .ok []) := by
  constructor
  · intro items hitems t ht
    rw [parsePDFOutline] at hitems
    rcases hout : doc.getOutline with e | oopt
    all_goals rw [hout] at hitems
    · cases hitems
    · rcases oopt with _ | outline
      · injection hitems with h
        subst h
        exact absurd ht IsNodeOf.not_nil
      · simp only at hitems
        split at hitems
        · injection hitems with h
          subst h
          exact absurd ht IsNodeOf.not_nil
        · injection hitems with h
          subst h
          exact (convert_invariant doc).2 outline t ht
  · rintro (h | h)
    · rw [parsePDFOutline, h]
    · rw [parsePDFOutline, h]
      rfl

/-- Concrete witness for C9: the one-node outline of `docEx` parses to a
single item with page 5 and title `"Chapter 1"`, which satisfies the
invariant; and a document whose outline is `null` parses to `[]`. -/
theorem parsePDFOutline_invariant_witness :
    (1 ≤ (PDFOutlineItem.mk "Chapter 1" 5 [] (some (.str "chapter1"))).page
      ∧ (PDFOutlineItem.mk "Chapter 1" 5 [] (some (.str "chapter1"))).title ≠ "")
    ∧ parsePDFOutline { docEx with getOutline := .ok none } = .ok [] :=
  ⟨(parsePDFOutline_invariant docEx).1
      [PDFOutlineItem.mk "Chapter 1" 5 [] (some (.str "chapter1"))]
      (by simp +decide [parsePDFOutline, docEx, convertItemsAsync,
            convertOutlineItemAsync, resolveDestination, destLookup,
            JSVal.truthy])
      _ (.root (by simp)),
   (parsePDFOutline_invariant { docEx with getOutline := .ok none }).2
      (Or.inl rfl)⟩

/-! ### Single-pass instrumentation (C7)

To state that each tree walk terminates after visiting every node exactly
once, each recursive function is paired with an instrumented copy that
follows the same recursion and additionally counts one visit per node
processed.  The theorem shows the instrumented copy computes the same
result and that its visit count equals the node count of the tree. -/

mutual

/-- Number of nodes of a raw outline node (itself plus its descendants). -/
def rawNodeCount : RawOutlineNode → Nat
  | .mk _ _ items => 1 + rawForestCount items

/-- Number of nodes of a raw outline forest. -/
def rawForestCount : List RawOutlineNode → Nat
  | [] => 0
  | n :: ns => rawNodeCount n + rawForestCount ns

end

mutual

/-- Number of nodes of an outline item (itself plus its descendants). -/
def itemNodeCount : PDFOutlineItem → Nat
  | .mk _ _ children _ => 1 + forestNodeCount children

/-- Number of nodes of an outline forest. -/
def forestNodeCount : List PDFOutlineItem → Nat
  | [] => 0
  | i :: rest => itemNodeCount i + forestNodeCount rest

end

mutual

/-- `convertOutlineItemAsync`, instrumented with a visit counter: one
visit for this node plus the visits of the recursive child conversion. -/
def convertCounted (doc : Doc) : RawOutlineNode → PDFOutlineItem × Nat
  | .mk title dest items =>
    let page : Nat :=
      match dest with
      | some d => if d.truthy then resolveDestination doc d else 1
      | none => 1
    let newTitle : String :=
      match title with
      | some s => if s = "" then "Untitled" else s
      | none => "Untitled"
    let sub := if items.length > 0 then convertListCounted doc items else ([], 0)
    (.mk newTitle page sub.1 dest, 1 + sub.2)

/-- The list recursion of `convertCounted`. -/
def convertListCounted (doc : Doc) : List RawOutlineNode → List PDFOutlineItem × Nat
  | [] => ([], 0)
  | n :: ns =>
    let hd := convertCounted doc n
    let tl := convertListCounted doc ns
    (hd.1 :: tl.1, hd.2 + tl.2)

end

/-- `filterBody`, instrumented with a visit counter: one visit for the
head item plus the visits into its children and into the rest, exactly
following `filterBody`'s recursion (children are always filtered before
the keep test runs). -/
def filterCounted (query : String) : List PDFOutlineItem → List PDFOutlineItem × Nat
  | [] => ([], 0)
  | .mk title page children dest :: rest =>
    let fc := filterCounted query children
    let fr := filterCounted query rest
    if jsIncludes (jsToLowerCase title) query || fc.1.length > 0 then
      (.mk title page fc.1 dest :: fr.1, 1 + fc.2 + fr.2)
    else
      (fr.1, 1 + fc.2 + fr.2)

/-- The instrumented conversion computes `convertOutlineItemAsync` and
visits `rawNodeCount` nodes. -/
theorem convertCounted_spec (doc : Doc) :
    (∀ n : RawOutlineNode,
        (convertCounted doc n).1 = convertOutlineItemAsync doc n
        ∧ (convertCounted doc n).2 = rawNodeCount n)
    ∧ (∀ ns : List RawOutlineNode,
        (convertListCounted doc ns).1 = convertItemsAsync doc ns
        ∧ (convertListCounted doc ns).2 = rawForestCount ns) := by
  refine RawOutlineNode.nodeInduction _ _ ?_ ?_ ?_
  · intro title dest items ih
    constructor
    · rw [convertCounted.eq_def, convertOutlineItemAsync.eq_def]
      simp only
      cases items with
      | nil => rfl
      | cons n ns => simp [ih.1]
    · rw [convertCounted.eq_def, rawNodeCount]
      simp only
      cases items with
      | nil => simp [rawForestCount]
      | cons n ns => simp [ih.2]
  · rw [convertListCounted, convertItemsAsync, rawForestCount]
    exact ⟨rfl, rfl⟩
  · intro n ns ihn ihns
    rw [convertListCounted, convertItemsAsync, rawForestCount]
    exact ⟨by simp [ihn.1, ihns.1], by simp [ihn.2, ihns.2]⟩

/-- The instrumented filter computes `filterBody` and visits
`forestNodeCount` nodes. -/
theorem filterCounted_spec (query : String) (items : List PDFOutlineItem) :
    (filterCounted query items).1 = filterBody query items
    ∧ (filterCounted query items).2 = forestNodeCount items := by
  induction items using filterCounted.induct query with
  | case1 =>
    rw [filterCounted, filterBody, forestNodeCount]
    exact ⟨rfl, rfl⟩
  | case2 title page children dest rest fc cond ihc ihr =>
    have cond2 : (jsIncludes (jsToLowerCase title) query
        || decide ((filterBody query children).length > 0)) = true := by
      rw [← ihc.1]; exact cond
    refine ⟨?_, ?_⟩
    · rw [filterCounted, filterBody]
      simp [cond, cond2, ihc.1, ihr.1]
    · rw [filterCounted, forestNodeCount, itemNodeCount]
      simp [cond, ihc.2, ihr.2]
      try omega
  | case3 title page children dest rest fc cond ihc ihr =>
    have cond2 : ¬ (jsIncludes (jsToLowerCase title) query
        || decide ((filterBody query children).length > 0)) = true := by
      rw [← ihc.1]; exact cond
    refine ⟨?_, ?_⟩
    · rw [filterCounted, filterBody]
      simp [cond, cond2, ihr.1]
    · rw [filterCounted, forestNodeCount, itemNodeCount]
      simp [cond, ihc.2, ihr.2]
      try omega

/-- **C7** (total single passes): both tree walks are total functions of
their finite input tree (they are definitions of the embedding, accepted
as terminating); run with an explicit visit counter, the conversion of a
node visits exactly its `rawNodeCount` nodes and, for a non-blank query,
the filtering of a forest visits exactly its `forestNodeCount` nodes —
each walk visits every node of the tree exactly once. -/
theorem tree_walks_single_pass (doc : Doc) (q : String) (n : RawOutlineNode)
    (items : List PDFOutlineItem) (hq : jsIsBlank q = false) :
    ((convertCounted doc n).1 = convertOutlineItemAsync doc n
      ∧ (convertCounted doc n).2 = rawNodeCount n)
    ∧ ((filterCounted (jsToLowerCase q) items).1 = filterOutline q items
      ∧ (filterCounted (jsToLowerCase q) items).2 = forestNodeCount items) := by
  refine ⟨(convertCounted_spec doc).1 n, ?_, (filterCounted_spec _ items).2⟩
  rw [(filterCounted_spec _ items).1, filterOutline, if_neg (by simp [hq])]

/-- Concrete witness for C7: on a three-node outline and node, both
counters are 3 and both instrumented walks agree with the originals. -/
theorem tree_walks_single_pass_witness :
    jsIsBlank "b" = false
    ∧ ((convertCounted docEx (.mk (some "A") none [.mk none none [], .mk none none []])).2
        = rawNodeCount (.mk (some "A") none [.mk none none [], .mk none none []])
      ∧ rawNodeCount (.mk (some "A") none [.mk none none [], .mk none none []]) = 3)
    ∧ ((filterCounted (jsToLowerCase "b")
          [PDFOutlineItem.mk "A" 1 [.mk "B" 2 [] none] none,
           PDFOutlineItem.mk "C" 3 [] none]).1
        = filterOutline "b"
          [PDFOutlineItem.mk "A" 1 [.mk "B" 2 [] none] none,
           PDFOutlineItem.mk "C" 3 [] none]
      ∧ forestNodeCount
          [PDFOutlineItem.mk "A" 1 [.mk "B" 2 [] none] none,
           PDFOutlineItem.mk "C" 3 [] none] = 3) :=
  ⟨by decide,
   ⟨((tree_walks_single_pass docEx "b"
        (.mk (some "A") none [.mk none none [], .mk none none []])
        [] (by decide)).1).2,
    by simp [rawNodeCount, rawForestCount]⟩,
   ⟨((tree_walks_single_pass docEx "b"
        (.mk (some "A") none [.mk none none [], .mk none none []])
        [PDFOutlineItem.mk "A" 1 [.mk "B" 2 [] none] none,
         PDFOutlineItem.mk "C" 3 [] none] (by decide)).2).1,
    by simp [forestNodeCount, itemNodeCount]⟩⟩

/-! ### Case-insensitivity of the filter (C6)

`Char.toLower` only moves the code points 65–90 to 97–122; it therefore
neither creates nor destroys whitespace, and it is idempotent.  These two
facts lift to `jsToLowerCase`/`jsIsBlank` and make `filterOutline` depend
on the query only through its lowercasing. -/

theorem toNat_char_ofNat {n : Nat} (h : n < 55296) : (Char.ofNat n).toNat = n := by
  rw [Char.ofNat, dif_pos (Or.inl h)]
  rfl

theorem char_eq_iff_toNat (c d : Char) : c = d ↔ c.toNat = d.toNat := by
  constructor
  · rintro rfl
    rfl
  · intro h
    exact Char.ext (UInt32.ext h)

theorem char_isWhitespace_iff (c : Char) :
    c.isWhitespace = true
      ↔ (c.toNat = 32 ∨ c.toNat = 9 ∨ c.toNat = 13 ∨ c.toNat = 10) := by
  rw [Char.isWhitespace]
  simp only [Bool.or_eq_true, decide_eq_true_eq]
  rw [char_eq_iff_toNat c ' ', char_eq_iff_toNat c '\t',
    char_eq_iff_toNat c '\r', char_eq_iff_toNat c '\n']
  rw [show (' ' : Char).toNat = 32 from rfl, show ('\t' : Char).toNat = 9 from rfl,
    show ('\r' : Char).toNat = 13 from rfl, show ('\n' : Char).toNat = 10 from rfl]
  tauto

theorem toLower_isWhitespace (c : Char) :
    (Char.toLower c).isWhitespace = c.isWhitespace := by
  rw [Char.toLower]
  split
  · rename_i h
    have hv : (Char.ofNat (c.toNat + 32)).toNat = c.toNat + 32 :=
      toNat_char_ofNat (by omega)
    have hA : (Char.ofNat (c.toNat + 32)).isWhitespace = false := by
      rcases hB : (Char.ofNat (c.toNat + 32)).isWhitespace with _ | _
      · rfl
      · exfalso
        rcases (char_isWhitespace_iff _).mp hB with h' | h' | h' | h' <;>
          (rw [hv] at h'; omega)
    have hC : c.isWhitespace = false := by
      rcases hB : c.isWhitespace with _ | _
      · rfl
      · exfalso
        rcases (char_isWhitespace_iff _).mp hB with h' | h' | h' | h' <;> omega
    rw [hA, hC]
  · rfl

theorem toLower_toLower (c : Char) :
    Char.toLower (Char.toLower c) = Char.toLower c := by
  by_cases h : c.toNat ≥ 65 ∧ c.toNat ≤ 90
  · have h1 : Char.toLower c = Char.ofNat (c.toNat + 32) := by
      rw [Char.toLower, if_pos h]
    have hv : (Char.ofNat (c.toNat + 32)).toNat = c.toNat + 32 :=
      toNat_char_ofNat (by omega)
    rw [h1, Char.toLower, if_neg (by rw [hv]; omega)]
  · have h1 : Char.toLower c = c := by rw [Char.toLower, if_neg h]
    rw [h1, h1]

theorem jsIsBlank_toLowerCase (s : String) :
    jsIsBlank (jsToLowerCase s) = jsIsBlank s := by
  rw [jsIsBlank, jsIsBlank, jsToLowerCase]
  show (s.data.map Char.toLower).all Char.isWhitespace
    = s.data.all Char.isWhitespace
  rw [List.all_map]
  congr 1
  funext c
  exact toLower_isWhitespace c

theorem jsToLowerCase_idem (s : String) :
    jsToLowerCase (jsToLowerCase s) = jsToLowerCase s := by
  rw [jsToLowerCase, jsToLowerCase]
  show (⟨(s.data.map Char.toLower).map Char.toLower⟩ : String)
    = ⟨s.data.map Char.toLower⟩
  rw [List.map_map]
  congr 1
  exact List.map_congr_left (fun c _ => toLower_toLower c)

/-- **C6** (case-insensitive search): `filterOutline` gives the same
result for any two queries with the same lowercasing — in particular for a
query and its lowercasing. -/
theorem filterOutline_case_insensitive (q w : String)
    (items : List PDFOutlineItem) :
    (jsToLowerCase w = jsToLowerCase q →
        filterOutline w items = filterOutline q items)
    ∧ filterOutline (jsToLowerCase q) items = filterOutline q items := by
  have main : ∀ a b : String, jsToLowerCase a = jsToLowerCase b →
      filterOutline a items = filterOutline b items := by
    intro a b hab
    have hblank : jsIsBlank a = jsIsBlank b := by
      rw [← jsIsBlank_toLowerCase a, ← jsIsBlank_toLowerCase b, hab]
    rw [filterOutline, filterOutline, hblank, hab]
  exact ⟨main w q, main (jsToLowerCase q) q (jsToLowerCase_idem q)⟩

/-- Concrete witness for C6: the case-variants `"AbC"` and `"aBc"` filter
a sample outline identically. -/
theorem filterOutline_case_insensitive_witness :
    jsToLowerCase "AbC" = jsToLowerCase "aBc"
    ∧ filterOutline "AbC"
        [PDFOutlineItem.mk "xAbCy" 1 [] none, PDFOutlineItem.mk "z" 2 [] none]
      = filterOutline "aBc"
        [PDFOutlineItem.mk "xAbCy" 1 [] none, PDFOutlineItem.mk "z" 2 [] none] :=
  ⟨by decide,
   (filterOutline_case_insensitive "aBc" "AbC"
      [PDFOutlineItem.mk "xAbCy" 1 [] none,
       PDFOutlineItem.mk "z" 2 [] none]).1 (by decide)⟩

/-! ### Parent preservation (C4) -/

/-- A root-to-node path in a forest: the head is a member of the forest
and each later element is a member of the previous element's children. -/
inductive AncestorPath : List PDFOutlineItem → List PDFOutlineItem → Prop where
  | single {items item} : item ∈ items → AncestorPath items [item]
  | cons {items item rest} : item ∈ items → AncestorPath item.children rest →
      AncestorPath items (item :: rest)

theorem AncestorPath.ne_nil {items path : List PDFOutlineItem}
    (hp : AncestorPath items path) : path ≠ [] := by
  cases hp <;> simp

theorem hasMatch_def (query : String) (item : PDFOutlineItem) :
    hasMatch query item
      = (jsIncludes (jsToLowerCase item.title) query
         || hasMatchList query item.children) := by
  cases item
  rw [hasMatch]
  rfl

/-- On a root-to-node path whose endpoint's title matches, every element
of the path satisfies `hasMatch`. -/
theorem path_hasMatch (query : String) {items path : List PDFOutlineItem}
    (hp : AncestorPath items path) :
    ∀ t, path.getLast? = some t →
      jsIncludes (jsToLowerCase t.title) query = true →
      ∀ x ∈ path, hasMatch query x = true := by
  induction hp with
  | @single items item hmem =>
    intro t hlast hm x hx
    simp only [List.getLast?_singleton, Option.some.injEq] at hlast
    subst hlast
    rcases List.mem_singleton.mp hx with rfl
    rw [hasMatch_def, hm]
    rfl
  | @cons items item rest hmem hpath ih =>
    intro t hlast hm x hx
    obtain ⟨r, rs, rfl⟩ := List.exists_cons_of_ne_nil hpath.ne_nil
    rw [List.getLast?_cons_cons] at hlast
    rcases List.mem_cons.mp hx with rfl | hx'
    · have hr : r ∈ x.children := by
        cases hpath with
        | single h => exact h
        | cons h _ => exact h
      have hmr : hasMatch query r = true :=
        ih t hlast hm r (List.mem_cons_self _ _)
      rw [hasMatch_def, hasMatchList_eq_any]
      have : x.children.any (hasMatch query) = true :=
        List.any_eq_true.mpr ⟨r, hr, hmr⟩
      rw [this, Bool.or_true]
    · exact ih t hlast hm x hx'

/-- For a non-blank (lowercased) query, a path all of whose elements
satisfy `hasMatch` survives `filterBody` with titles and pages intact. -/
theorem path_preserved (query : String) {items path : List PDFOutlineItem}
    (hp : AncestorPath items path)
    (hall : ∀ x ∈ path, hasMatch query x = true) :
    ∃ path', AncestorPath (filterBody query items) path'
      ∧ path'.map PDFOutlineItem.title = path.map PDFOutlineItem.title
      ∧ path'.map PDFOutlineItem.page = path.map PDFOutlineItem.page := by
  induction hp with
  | @single items item hmem =>
    have hm : hasMatch query item = true := hall item (by simp)
    refine ⟨[filterNode query item], AncestorPath.single ?_, ?_, ?_⟩
    · rw [filterBody_eq]
      exact List.mem_map_of_mem _ (List.mem_filter.mpr ⟨hmem, hm⟩)
    · cases item
      rfl
    · cases item
      rfl
  | @cons items item rest hmem hpath ih =>
    have hm : hasMatch query item = true := hall item (by simp)
    obtain ⟨rest', hr, hrt, hrp⟩ :=
      ih (fun x hx => hall x (List.mem_cons_of_mem _ hx))
    refine ⟨filterNode query item :: rest', AncestorPath.cons ?_ ?_, ?_, ?_⟩
    · rw [filterBody_eq]
      exact List.mem_map_of_mem _ (List.mem_filter.mpr ⟨hmem, hm⟩)
    · cases item
      simpa [filterNode] using hr
    · simp only [List.map_cons, hrt]
      congr 1
      cases item
      rfl
    · simp only [List.map_cons, hrp]
      congr 1
      cases item
      rfl

/-- **C4** (filtering preserves parents): for every query, if a node whose
lowercased title contains the lowercased query is reachable in the input
forest by a root-to-node path, then the filtered output contains a
root-to-node path with the same titles and pages — the matching node and
all its ancestors survive the filter. -/
theorem filterOutline_preserves_parents (q : String)
    (items path : List PDFOutlineItem) (t : PDFOutlineItem)
    (hpath : AncestorPath items path)
    (hlast : path.getLast? = some t)
    (hmatch : jsIncludes (jsToLowerCase t.title) (jsToLowerCase q) = true) :
    ∃ path', AncestorPath (filterOutline q items) path'
      ∧ path'.map PDFOutlineItem.title = path.map PDFOutlineItem.title
      ∧ path'.map PDFOutlineItem.page = path.map PDFOutlineItem.page := by
  by_cases hq : jsIsBlank q = true
  · exact ⟨path, by rwa [filterOutline, if_pos hq], rfl, rfl⟩
  · have hall := path_hasMatch (jsToLowerCase q) hpath t hlast hmatch
    obtain ⟨path', hp', ht', hpg'⟩ := path_preserved (jsToLowerCase q) hpath hall
    refine ⟨path', ?_, ht', hpg'⟩
    rwa [filterOutline, if_neg hq]

/-- Concrete witness for C4: the grandchild `"Target"` matches `"tar"`,
and the filtered outline keeps the whole ancestor chain
`"A" / "B" / "Target"` with its pages. -/
theorem filterOutline_preserves_parents_witness :
    ∃ path', AncestorPath
        (filterOutline "tar"
          [PDFOutlineItem.mk "A" 1
            [PDFOutlineItem.mk "B" 2
              [PDFOutlineItem.mk "Target" 3 [] none] none] none]) path'
      ∧ path'.map PDFOutlineItem.title
          = [PDFOutlineItem.mk "A" 1
              [PDFOutlineItem.mk "B" 2
                [PDFOutlineItem.mk "Target" 3 [] none] none] none,
             PDFOutlineItem.mk "B" 2
              [PDFOutlineItem.mk "Target" 3 [] none] none,
             PDFOutlineItem.mk "Target" 3 [] none].map PDFOutlineItem.title
      ∧ path'.map PDFOutlineItem.page
          = [PDFOutlineItem.mk "A" 1
              [PDFOutlineItem.mk "B" 2
                [PDFOutlineItem.mk "Target" 3 [] none] none] none,
             PDFOutlineItem.mk "B" 2
              [PDFOutlineItem.mk "Target" 3 [] none] none,
             PDFOutlineItem.mk "Target" 3 [] none].map PDFOutlineItem.page :=
  filterOutline_preserves_parents "tar" _ _
    (PDFOutlineItem.mk "Target" 3 [] none)
    (AncestorPath.cons (by simp)
      (AncestorPath.cons (by simp) (AncestorPath.single (by simp))))
    (by simp)
    (by decide)

end PdfOutline
